import Mathlib

/-!
# MelodicNet — verification of the frontend generation UI and the generation contract

This file shallowly embeds the MelodicNet frontend (React/TypeScript sources under
`frontend/src`) and the constrained generation engine described by the backend
interface, and proves the behavioural claims about them.

Conventions of the embedding:
* JavaScript `File` objects are modelled by `FileM` (name, MIME/extension type,
  byte content); a `FileList` is a `List FileM`; `null`/`undefined` is `Option`.
* React `useState` state of the `HomePage` component is the record `HomeState`;
  every event handler that is attached to a rendered element in the JSX is one
  constructor of `Event`, and `step` applies the handler's `set*` calls.
  Handlers that are received as props but whose controls are commented out of
  the JSX (the octave-range slider and the mood selector) have no `Event`
  constructor, since no rendered element can fire them.
* Numbers held in slider state are `Nat` (integer sliders) or `ℚ` (the
  temperature slider, whose values are exact decimals).
-/

namespace MelodicNet

/-- Model of a JavaScript `File`: constructed as `new File([blob], name, { type })`.
`type` holds whatever string the constructor received (the frontend passes either a
MIME type or a file-name extension). `content` models the blob bytes. -/
structure FileM where
  name : String
  type : String
  content : List Nat
deriving DecidableEq

/-- Type `MidiObj` from `frontend/src/types.ts`: `{ midiFile: File; imageFile: File }`.
The upload path constructs it with `imageFile: undefined`, so at runtime the image
is optional despite the TypeScript annotation; the embedding makes that explicit. -/
structure MidiObj where
  midiFile : FileM
  imageFile : Option FileM
deriving DecidableEq

/-- An element pushed onto `_genMidis` in `handleGenerate`.  The loop reads
`fileList[i]` and `fileList[i + 1]`; in JavaScript an out-of-range index yields
`undefined`, so both fields are `Option`. -/
structure GenMidi where
  midiFile : Option FileM
  imageFile : Option FileM
deriving DecidableEq

/-- A sample MIDI descriptor (`SampleMIDI` in `frontend/src/types.ts`). -/
structure SampleMIDI where
  name : String
  url : String
  imageUrl : String
  seed : String
  temperature : ℚ
deriving DecidableEq

/-- The pairing loop of `handleGenerate` (HomePage lines 57–65):
`for (let i = 0; i < fileList.length; i += 2)` pushes
`{ midiFile: fileList[i + 1], imageFile: fileList[i] }`. -/
def pairFiles : List FileM → List GenMidi
  | [] => []
  | [a] => [⟨none, some a⟩]
  | a :: b :: rest => ⟨some b, some a⟩ :: pairFiles rest

/-- Model of the JavaScript `Number(s)` conversion restricted to the inputs the
claims range over (strings of decimal digits, possibly empty): the empty string
converts to `0`, a digit string to its value, and any string containing a
non-digit character to NaN (`none`). -/
def jsNumber (s : String) : Option Nat :=
  if s.data.all (fun c => c.isDigit) then
    some (s.data.foldl (fun n c => n * 10 + (c.toNat - 48)) 0)
  else none

/-- Handler `handleSeedChange` (HomePage lines 104–108): the typed value is cleared to
`''` when `isNaN(Number(newSeed)) || Number(newSeed) < 1`, otherwise stored. -/
def handleSeedChange (input : String) : String :=
  match jsNumber input with
  | none => ""
  | some v => if v < 1 then "" else input

/-- A value appended to the `FormData` in `handleGenerate`: either a string or a
`File`. -/
inductive FormValue where
  | str (s : String)
  | file (f : FileM)
deriving DecidableEq

/-- The `useState` state of the `HomePage` component (HomePage lines 14–27),
restricted to the fields the claims concern. -/
structure HomeState where
  nOutputs : Nat
  octaveRange : Nat × Nat
  keySignature : String
  mood : String
  outputLength : Nat
  temperature : ℚ
  seed : String
  inpMidi : Option MidiObj
  loading : Bool
  error : Option String
  genMidis : List GenMidi

/-- The initial `HomePage` state, from the `useState` initializers:
`nOutputs = 1`, `octaveRange = [2, 6]`, `keySignature = 'orig'`,
`mood = 'regular'`, `outputLength = 16`, `temperature = 0.9`, `seed = ''`,
no input MIDI, not loading, no error, no generated MIDIs. -/
def initState : HomeState :=
  { nOutputs := 1
    octaveRange := (2, 6)
    keySignature := "orig"
    mood := "regular"
    outputLength := 16
    temperature := 9/10
    seed := ""
    inpMidi := none
    loading := false
    error := none
    genMidis := [] }

/-- The `FormData` built by `handleGenerate` (HomePage lines 32–43), as an
ordered association list: the eight `append` calls in source order, then
`file` exactly when `inpMidi` is set. -/
def buildFormData (s : HomeState) : List (String × FormValue) :=
  [("outputCount", .str (Nat.repr s.nOutputs)),
   ("minOctave", .str (Nat.repr s.octaveRange.1)),
   ("maxOctave", .str (Nat.repr s.octaveRange.2)),
   ("keySignature", .str s.keySignature),
   ("mood", .str s.mood),
   ("outputLength", .str (Nat.repr s.outputLength)),
   ("temperature", .str (toString s.temperature)),
   ("seed", .str s.seed)] ++
  (match s.inpMidi with
   | some m => [("file", .file m.midiFile)]
   | none => [])

/-- Outcome of the `axios.post` to `/predict` inside `handleGenerate`:
success carries the file list extracted from the zip response; a failure whose
error carries a `response` has its body JSON-decoded to an error-message string
(the HTTP layer's failure responses are JSON-encoded strings); any other
failure only reaches `console.error`. -/
inductive PredictOutcome where
  | success (fileList : List FileM)
  | errorWithResponse (decodedBody : String)
  | errorNoResponse

/-- Handler `handleGenerate` (HomePage lines 29–77) as a state transformer, given the
request outcome: before the request it sets `loading := true`, clears the error
and clears `genMidis`; on success it pairs the extracted files into `genMidis`;
on an error with a response it stores the decoded message; the `finally` block
resets `loading`. -/
def handleGenerate (s : HomeState) (outcome : PredictOutcome) : HomeState :=
  let s1 := { s with loading := true, error := none, genMidis := ([] : List GenMidi) }
  match outcome with
  | .success fileList => { s1 with genMidis := pairFiles fileList, loading := false }
  | .errorWithResponse body => { s1 with error := some body, loading := false }
  | .errorNoResponse => { s1 with loading := false }

/-- The events the rendered `HomePage` UI can fire, one per handler attached to
an element in the JSX: the number-of-outputs, output-length and temperature
sliders, the key-signature select, the seed input, the upload zone's `setFile`
(which wraps the file in a `MidiObj` without an image), a sample-MIDI click
(which sets the input MIDI with its image and overwrites seed and temperature),
and a click of the Generate button together with the outcome of its request.
`handleOctaveRangeChange` and `handleMoodChange` are passed as props but their
controls are commented out of the JSX, so no event exists for them. -/
inductive Event where
  | nOutputsChange (v : Nat)
  | keySignatureChange (v : String)
  | outputLengthChange (v : Nat)
  | temperatureChange (v : ℚ)
  | seedChange (input : String)
  | uploadFile (f : FileM)
  | sampleClick (s : SampleMIDI) (midiF imageF : FileM)
  | generateClick (outcome : PredictOutcome)

/-- One UI event applied to the `HomePage` state. -/
def step (s : HomeState) : Event → HomeState
  | .nOutputsChange v => { s with nOutputs := v }
  | .keySignatureChange v => { s with keySignature := v }
  | .outputLengthChange v => { s with outputLength := v }
  | .temperatureChange v => { s with temperature := v }
  | .seedChange input => { s with seed := handleSeedChange input }
  | .uploadFile f => { s with inpMidi := some ⟨f, none⟩ }
  | .sampleClick sm midiF imageF =>
      { s with inpMidi := some ⟨midiF, some imageF⟩, seed := sm.seed,
               temperature := sm.temperature }
  | .generateClick outcome => handleGenerate s outcome

/-- The `HomePage` state after a sequence of UI events, starting from the
`useState` initializers. -/
def run (evs : List Event) : HomeState := evs.foldl step initState

/-- The twelve pitch classes, in chromatic order (lower half, then upper). -/
def pitchClasses : List String :=
  ["C", "C#", "D", "D#", "E", "F"] ++ ["F#", "G", "G#", "A", "A#", "B"]

/-- The `(value, label)` pairs of the `<option>` elements of the key-signature
`<select>` in `InputParameters` (lines 131–145), in source order. -/
def keySignatureOptions : List (String × String) :=
  [("orig", "Same as input"), ("C", "C"), ("C#", "C#"), ("D", "D"),
   ("D#", "D#"), ("E", "E"), ("F", "F"), ("F#", "F#"), ("G", "G"),
   ("G#", "G#"), ("A", "A"), ("A#", "A#"), ("B", "B")]

/-- The submittable values of the key-signature control. -/
def keySigValues : List String := keySignatureOptions.map Prod.fst

/-- An event is UI-generated when any value it carries is one the rendered
control can produce.  The only control whose values are drawn from a fixed
enumeration relevant here is the key-signature `<select>`: its `onChange`
fires only with one of its `<option>` values. -/
def uiEvent : Event → Bool
  | .keySignatureChange v => decide (v ∈ keySigValues)
  | _ => true

/-- The accepted MIME types of the upload zone
(`FileUpload`, line 23): `['audio/midi', 'audio/x-midi', 'audio/mid']`. -/
def midiMimeTypes : List String := ["audio/midi", "audio/x-midi", "audio/mid"]

/-- Handler `handleFileChange` of the upload component (`FileUpload`, lines 13–30),
returning the component's error message after the event and the file passed to
`setFile` when `setFile` is invoked (`none` = not invoked, so the previously
selected file stays).  `files` is `event.target.files` (`none` = null). -/
def handleFileChange (curError : String) (files : Option (List FileM)) :
    String × Option FileM :=
  match files with
  | none => (curError, none)
  | some [] => (curError, none)
  | some [f] =>
      if f.type ∈ midiMimeTypes then ("", some f)
      else ("Only MIDI files are supported.", none)
  | some (_ :: _ :: _) => ("Uploading multiple files not supported yet.", none)

/-- An entry of a JSZip archive: its name, whether it is a directory, and its
content bytes. -/
structure ZipEntry where
  name : String
  dir : Bool
  content : List Nat
deriving DecidableEq

/-- JavaScript `s.split('.')` on the character list of `s`: splits at every
`'.'`, keeping empty pieces (`''.split('.') = ['']`). -/
def splitDot : List Char → List (List Char)
  | [] => [[]]
  | c :: cs =>
      if c = '.' then [] :: splitDot cs
      else
        match splitDot cs with
        | [] => [[c]]
        | p :: ps => (c :: p) :: ps

/-- The suffix of a name after its last `'.'` (the whole name when it contains
no `'.'`), stated independently of `splitDot`: reverse, take up to the first
`'.'`, reverse back. -/
def afterLastDot (cs : List Char) : List Char :=
  (cs.reverse.takeWhile (fun c => c ≠ '.')).reverse

/-- The expression `file.name.split('.').pop()!` from `extractFilesFromZip`. -/
def splitPop (s : String) : String := ⟨(splitDot s.data).getLastD []⟩

/-- The claim's phrasing of the extension: the substring of the name after its
last `'.'` character. -/
def extAfterLastDot (s : String) : String := ⟨afterLastDot s.data⟩

/-- Function `extractFilesFromZip` (`utils/server.ts`, lines 20–40): iterate the zip's
entries in order, skip directories, and for each file entry build a `File`
whose name is the entry's name, whose type is `file.name.split('.').pop()!`,
and whose content is the entry's blob. -/
def extractFilesFromZip (entries : List ZipEntry) : List FileM :=
  entries.filterMap (fun e =>
    if e.dir then none
    else some { name := e.name, type := splitPop e.name, content := e.content })

/-!
## The constrained generation engine

The backend implementation is not part of the provided sources (only its README
and the spec describe it), so the generator is modelled from the spec,
section 4.5.
-/

/-- Modelled from the spec: the trained sequence model (spec 4.4), absent from
the sources — a context-window length and a `predict_next` operation returning
a weight for every vocabulary id. -/
structure MNModel where
  windowLen : Nat
  predict : List Nat → List ℚ

/-- Modelled from the spec: the vocabulary's per-token attributes used by the
sampler (spec 3, 4.5), absent from the sources — whether an id is a pitched
token, its octave and pitch class when pitched, whether it is the
end-of-sequence token, and its duration in sixteenth-note units. -/
structure Vocab where
  isPitched : Nat → Bool
  octaveOf : Nat → Nat
  pitchClassOf : Nat → Nat
  isEnd : Nat → Bool
  durationOf : Nat → Nat

/-- Modelled from the spec: a generation request (spec 3), absent from the
sources.  `keySignature` is a target pitch class, `none` meaning
"same as input"; `seed` is the optional random seed. -/
structure GenRequest where
  seedContext : List Nat
  outputLength : Nat
  temperature : ℚ
  minOctave : Nat
  maxOctave : Nat
  keySignature : Option Nat
  seed : Option Nat
  outputCount : Nat

/-- Sixteenth-note units per bar. -/
def unitsPerBar : Nat := 16

/-- Spec 4.5: retries for an output that ends before one bar are bounded by a
small constant. -/
def retryLimit : Nat := 3

/-- Spec 4.5: the deterministic per-output sub-seed — seed + output index. -/
def mkSubSeed (seed i : Nat) : Nat := seed + i

/-- The deterministic pseudo-random step (a 32-bit linear congruential
generator); every sampling decision of one output is driven by iterating it
from that output's sub-seed. -/
def lcgNext (s : Nat) : Nat := (1664525 * s + 1013904223) % 4294967296

/-- A pseudo-random rational in `[0, 1)` from an LCG state. -/
def rngUnit (r : Nat) : ℚ := (r % 4294967296 : ℚ) / 4294967296

/-- The major-scale pitch-class offsets. -/
def majorScale : List Nat := [0, 2, 4, 5, 7, 9, 11]

/-- Whether pitch class `pc` lies in the scale of key `key`. -/
def inKey (key pc : Nat) : Bool :=
  majorScale.contains ((pc + 12 - key % 12) % 12)

/-- Spec 4.5 step 3: a token violates the request when it is pitched and its
octave falls outside `[minOctave, maxOctave]`, or a target key is requested and
its pitch class is outside that key's scale. -/
def allowed (vocab : Vocab) (req : GenRequest) (tok : Nat) : Bool :=
  if vocab.isPitched tok then
    decide (req.minOctave ≤ vocab.octaveOf tok) &&
    decide (vocab.octaveOf tok ≤ req.maxOctave) &&
    (match req.keySignature with
     | none => true
     | some key => inKey key (vocab.pitchClassOf tok))
  else true

/-- Spec 4.5 step 2: temperature rescaling of the predicted weights — a
deterministic pointwise transform (the claims settled here concern determinism
and batch structure, not the statistical effect of the rescale). -/
def rescale (t : ℚ) (w : List ℚ) : List ℚ := w.map (fun x => x / t)

/-- Spec 4.5 step 3: zero the probability mass of every token that violates
the request's constraints. -/
def maskWeights (vocab : Vocab) (req : GenRequest) (w : List ℚ) : List ℚ :=
  w.enum.map (fun p => if allowed vocab req p.1 then p.2 else 0)

/-- Total mass of a weight list. -/
def qsum (w : List ℚ) : ℚ := w.foldl (fun a b => a + b) 0

/-- Index of the highest-weight token (first one on ties). -/
def argmaxIdx (w : List ℚ) : Nat :=
  ((w.enum.foldl
      (fun acc p =>
        match acc with
        | none => some p
        | some q => if q.2 < p.2 then some p else some q)
      none).map Prod.fst).getD 0

/-- Inverse-CDF sampling: walk the weights subtracting until the drawn mass
`x` lands inside a bucket. -/
def pickIndex : List ℚ → ℚ → Nat
  | [], _ => 0
  | w :: ws, x => if x < w then 0 else pickIndex ws (x - w) + 1

/-- One sampling decision: rescale by temperature, mask constraint violators,
then sample by mass from the per-output random state; when masking eliminates
the entire mass, fall back to the single highest-weight token before masking
(spec 4.5 step 3 — generation always makes forward progress). -/
def chooseToken (vocab : Vocab) (req : GenRequest) (dist : List ℚ) (r : Nat) :
    Nat :=
  let scaled := rescale req.temperature dist
  let filtered := maskWeights vocab req scaled
  let total := qsum filtered
  if total ≤ 0 then argmaxIdx scaled
  else pickIndex filtered (rngUnit r * total)

/-- Spec 4.5 seeding: the input context truncated to the last `windowLen`
tokens when longer, left-padded with the reserved pad id 0 when shorter. -/
def initContext (model : MNModel) (req : GenRequest) : List Nat :=
  let c := req.seedContext
  if model.windowLen ≤ c.length then c.drop (c.length - model.windowLen)
  else List.replicate (model.windowLen - c.length) 0 ++ c

/-- Upper bound on loop steps of one attempt (the spec's loop stops at the
requested bar length or at end-of-sequence; the bound makes the model total
even on vocabularies of zero-duration tokens). -/
def maxSteps (req : GenRequest) : Nat := 64 * (req.outputLength + 1)

/-- Accumulated duration of a token sequence, in sixteenth-note units. -/
def totalDuration (vocab : Vocab) (toks : List Nat) : Nat :=
  (toks.map vocab.durationOf).sum

/-- The token-by-token loop (spec 4.5): until the accumulated duration reaches
the requested bar length or the sampled token is end-of-sequence, query the
model on the current window, choose a token, append it and slide the window.
`r` is the per-output random state, advanced once per step. -/
def genLoop (model : MNModel) (vocab : Vocab) (req : GenRequest) :
    Nat → Nat → List Nat → List Nat → Nat → List Nat
  | 0, _, _, acc, _ => acc.reverse
  | fuel + 1, r, ctx, acc, dur =>
      if unitsPerBar * req.outputLength ≤ dur then acc.reverse
      else
        let r' := lcgNext r
        let tok := chooseToken vocab req (model.predict ctx) r'
        if vocab.isEnd tok then acc.reverse
        else
          genLoop model vocab req fuel r'
            ((ctx ++ [tok]).drop (ctx.length + 1 - model.windowLen))
            (tok :: acc) (dur + vocab.durationOf tok)

/-- One generation attempt for one output from a given random state. -/
def genAttempt (model : MNModel) (vocab : Vocab) (req : GenRequest) (r : Nat) :
    List Nat :=
  genLoop model vocab req (maxSteps req) r (initContext model req) [] 0

/-- Spec 4.5 termination: when an attempt ends shorter than one bar, restart it
(with a deterministically advanced random state) up to `retryLimit` times, then
accept the short result. -/
def genWithRetry (model : MNModel) (vocab : Vocab) (req : GenRequest) :
    Nat → Nat → List Nat
  | 0, r => genAttempt model vocab req r
  | n + 1, r =>
      let out := genAttempt model vocab req r
      if unitsPerBar ≤ totalDuration vocab out then out
      else genWithRetry model vocab req n (lcgNext (r + 7919))

/-- One output's token sequence, wholly determined by the model, the
vocabulary, the request and the output's initial random state. -/
def generateOne (model : MNModel) (vocab : Vocab) (req : GenRequest) (r : Nat) :
    List Nat :=
  genWithRetry model vocab req retryLimit r

/-- Modelled from the spec: `generate(model, vocab, request)` (spec 4.5),
absent from the sources.  The `entropy` argument is the ambient randomness of
an unseeded run; when the request carries a seed, output `i` is generated from
the deterministic sub-seed `seed + i` and `entropy` is never consulted. -/
def generate (model : MNModel) (vocab : Vocab) (req : GenRequest)
    (entropy : Nat) : List (List Nat) :=
  (List.range req.outputCount).map (fun i =>
    generateOne model vocab req
      (match req.seed with
       | some s => mkSubSeed s i
       | none => mkSubSeed entropy i))

/-!
## Theorems
-/

/-- Concrete model used to witness the generation claims. -/
def wModel : MNModel := { windowLen := 2, predict := fun _ => [1, 1] }

/-- Concrete vocabulary used to witness the generation claims. -/
def wVocab : Vocab :=
  { isPitched := fun _ => false
    octaveOf := fun _ => 0
    pitchClassOf := fun _ => 0
    isEnd := fun t => t == 1
    durationOf := fun _ => 16 }

/-- Concrete request used to witness the generation claims. -/
def wReq : GenRequest :=
  { seedContext := []
    outputLength := 1
    temperature := 1
    minOctave := 2
    maxOctave := 6
    keySignature := none
    seed := some 5
    outputCount := 2 }

/-- C1: with a request seed `s`, `generate` does not depend on the ambient
entropy — two invocations on the same model, vocabulary and request produce
identical token sequences — and output `i` of the batch is generated from the
deterministic per-output sub-seed `s + i` of the single request seed. -/
theorem gen_determinism (model : MNModel) (vocab : Vocab) (req : GenRequest)
    (s : Nat) (h : req.seed = some s) (e1 e2 i : Nat)
    (hi : i < req.outputCount) :
    generate model vocab req e1 = generate model vocab req e2 ∧
    (generate model vocab req e1)[i]? =
      some (generateOne model vocab req (mkSubSeed s i)) := by
  unfold generate
  rw [h]
  refine ⟨rfl, ?_⟩
  rw [List.getElem?_map, List.getElem?_range hi]
  rfl

/-- Witness for `gen_determinism` at a concrete model, vocabulary and seeded
request. -/
theorem gen_determinism_witness :
    generate wModel wVocab wReq 0 = generate wModel wVocab wReq 123 ∧
    (generate wModel wVocab wReq 0)[0]? =
      some (generateOne wModel wVocab wReq (mkSubSeed 5 0)) :=
  gen_determinism wModel wVocab wReq 5 rfl 0 123 0 (by decide)

/-- C2: for every request with `outputCount = N ≥ 1`, `generate` returns
exactly `N` results; `generateOne` is total (constraint fallback and the
bounded short-sequence retry always produce a result), so no output can abort
the batch. -/
theorem gen_batch_completeness (model : MNModel) (vocab : Vocab)
    (req : GenRequest) (entropy : Nat) (h : 1 ≤ req.outputCount) :
    (generate model vocab req entropy).length = req.outputCount := by
  simp [generate]

/-- Witness for `gen_batch_completeness` at a concrete request with
`outputCount = 2`. -/
theorem gen_batch_completeness_witness :
    (generate wModel wVocab wReq 0).length = wReq.outputCount :=
  gen_batch_completeness wModel wVocab wReq 0 (by decide)

/-- C8: on a failed `/predict` request whose error carries a response,
`handleGenerate` stores the JSON-decoded response body as the displayed error,
leaves the generated-MIDI list empty (it was cleared before the request and the
error path never repopulates it), and resets the loading flag. -/
theorem error_path_state (s : HomeState) (body : String) :
    (handleGenerate s (.errorWithResponse body)).error = some body ∧
    (handleGenerate s (.errorWithResponse body)).genMidis = [] ∧
    (handleGenerate s (.errorWithResponse body)).loading = false :=
  ⟨rfl, rfl, rfl⟩

/-- No UI event changes `octaveRange` or `mood`: their controls are commented
out of the JSX, so `step` never writes either field. -/
lemma step_fixed (s : HomeState) (e : Event) :
    (step s e).octaveRange = s.octaveRange ∧ (step s e).mood = s.mood := by
  cases e
  case generateClick outcome => cases outcome <;> exact ⟨rfl, rfl⟩
  all_goals exact ⟨rfl, rfl⟩

/-- Fields `octaveRange` and `mood` are constant along any event sequence. -/
lemma foldl_fixed (evs : List Event) :
    ∀ s : HomeState, (evs.foldl step s).octaveRange = s.octaveRange ∧
      (evs.foldl step s).mood = s.mood := by
  induction evs with
  | nil => exact fun s => ⟨rfl, rfl⟩
  | cons e evs ih =>
      intro s
      have h1 := step_fixed s e
      have h2 := ih (step s e)
      exact ⟨h2.1.trans h1.1, h2.2.trans h1.2⟩

/-- The key signature stays one of the select's option values along any
sequence of UI events. -/
lemma foldl_keysig : ∀ (evs : List Event) (s : HomeState),
    (∀ e ∈ evs, uiEvent e = true) → s.keySignature ∈ keySigValues →
    (evs.foldl step s).keySignature ∈ keySigValues := by
  intro evs
  induction evs with
  | nil => exact fun s _ hs => hs
  | cons e evs ih =>
      intro s h hs
      apply ih (step s e) (fun x hx => h x (List.mem_cons_of_mem _ hx))
      cases e
      case keySignatureChange v =>
        have hv := h _ (List.mem_cons_self _ _)
        simpa [uiEvent] using hv
      case generateClick outcome => cases outcome <;> exact hs
      all_goals exact hs

/-- C5: after any sequence of UI events, `octaveRange` is still its initial
value `[2, 6]` (the octave-range control is commented out and nothing else
writes it), so every posted form carries `minOctave = 2` and `maxOctave = 6`
and the entry-point precondition `low < high` holds. -/
theorem octave_range_invariant (evs : List Event) :
    (run evs).octaveRange = (2, 6) ∧
    ("minOctave", FormValue.str "2") ∈ buildFormData (run evs) ∧
    ("maxOctave", FormValue.str "6") ∈ buildFormData (run evs) ∧
    (run evs).octaveRange.1 < (run evs).octaveRange.2 := by
  have h : (run evs).octaveRange = (2, 6) := (foldl_fixed evs initState).1
  have e2 : Nat.repr 2 = "2" := rfl
  have e6 : Nat.repr 6 = "6" := rfl
  refine ⟨h, ?_, ?_, ?_⟩
  · simp [buildFormData, h, e2]
  · simp [buildFormData, h, e6]
  · rw [h]; exact Nat.lt_of_sub_eq_succ rfl

/-- C6: the form posted by every Generate click carries exactly the fields
`outputCount`, `minOctave`, `maxOctave`, `keySignature`, `mood`,
`outputLength`, `temperature`, `seed`, plus `file` exactly when an input MIDI
is set; and the reserved `mood` field is always sent with its default value
`'regular'`, its selector being commented out of the JSX. -/
theorem formdata_fields (evs : List Event) :
    (buildFormData (run evs)).map Prod.fst =
      ["outputCount", "minOctave", "maxOctave", "keySignature", "mood",
       "outputLength", "temperature", "seed"] ++
      (match (run evs).inpMidi with
       | some _ => ["file"]
       | none => []) ∧
    ("mood", FormValue.str "regular") ∈ buildFormData (run evs) := by
  have hm : (run evs).mood = "regular" := (foldl_fixed evs initState).2
  constructor
  · cases h : (run evs).inpMidi <;> simp [buildFormData, h]
  · simp [buildFormData, hm]

/-- C7: the key-signature control offers exactly the 13 values `'orig'`
(labelled "Same as input") followed by the 12 pitch classes, so after any
sequence of UI events the submitted `keySignature` is one of them. -/
theorem keysig_options (evs : List Event)
    (h : ∀ e ∈ evs, uiEvent e = true) :
    keySigValues = "orig" :: pitchClasses ∧
    keySigValues.length = 13 ∧
    (run evs).keySignature ∈ keySigValues :=
  ⟨rfl, rfl, foldl_keysig evs initState h (by decide)⟩

/-- Witness for `keysig_options` after selecting `D#`. -/
theorem keysig_options_witness :
    keySigValues = "orig" :: pitchClasses ∧
    keySigValues.length = 13 ∧
    (run [Event.keySignatureChange "D#"]).keySignature ∈ keySigValues :=
  keysig_options [Event.keySignatureChange "D#"] (by decide)

/-- C4 counterexample: entering the decimal string of 0 does not store `"0"` —
`handleSeedChange` clears it, because the handler rejects every value below 1. -/
theorem seed_zero_cleared : handleSeedChange (Nat.repr 0) ≠ Nat.repr 0 := by
  decide

/-- C4 as amended: the seed input stores the typed digit string exactly when
its numeric value is at least 1; values below 1 (in particular 0) are cleared
to the empty string. -/
theorem seed_positive_kept (st : HomeState) (input : String) (v : Nat)
    (hparse : jsNumber input = some v) (hpos : 1 ≤ v) :
    (step st (.seedChange input)).seed = input := by
  show handleSeedChange input = input
  unfold handleSeedChange
  rw [hparse]
  simp [Nat.not_lt.mpr hpos]

/-- Witness for `seed_positive_kept` at the typed seed `"7"`. -/
theorem seed_positive_kept_witness :
    (step initState (.seedChange "7")).seed = "7" :=
  seed_positive_kept initState "7" 7 (by decide) (by decide)

/-- Concrete MIDI file used to witness the upload claim. -/
def wFile : FileM := { name := "in.mid", type := "audio/midi", content := [] }

/-- C9: `setFile` is invoked iff exactly one file is selected and its MIME type
is an accepted MIDI type; selecting multiple files or a non-MIDI file sets the
corresponding error message and leaves the previously selected file unchanged
(`setFile` is not called); accepting a valid file clears the error. -/
theorem file_upload_validation (curError : String)
    (files : Option (List FileM)) :
    ((handleFileChange curError files).2.isSome = true ↔
      ∃ f, files = some [f] ∧ f.type ∈ midiMimeTypes) ∧
    (∀ fs, files = some fs → 2 ≤ fs.length →
      handleFileChange curError files =
        ("Uploading multiple files not supported yet.", none)) ∧
    (∀ f, files = some [f] → f.type ∉ midiMimeTypes →
      handleFileChange curError files =
        ("Only MIDI files are supported.", none)) ∧
    (∀ f, files = some [f] → f.type ∈ midiMimeTypes →
      handleFileChange curError files = ("", some f)) := by
  rcases files with _ | (_ | ⟨f, _ | ⟨g, fs⟩⟩)
  · exact ⟨by simp [handleFileChange], by simp, by simp, by simp⟩
  · refine ⟨by simp [handleFileChange], ?_, by simp, by simp⟩
    intro fs h hlen
    cases h
    simp at hlen
  · by_cases hmem : f.type ∈ midiMimeTypes
    · refine ⟨?_, ?_, ?_, ?_⟩
      · simp [handleFileChange, hmem]
      · intro fs h hlen; cases h; simp at hlen
      · intro g h hg; cases h; exact absurd hmem hg
      · intro g h _; cases h; simp [handleFileChange, hmem]
    · refine ⟨?_, ?_, ?_, ?_⟩
      · simp only [handleFileChange, if_neg hmem]
        constructor
        · intro h; simp at h
        · rintro ⟨g, hg, hgt⟩
          cases hg
          exact absurd hgt hmem
      · intro fs h hlen; cases h; simp at hlen
      · intro g h _; cases h; simp [handleFileChange, hmem]
      · intro g h hg; cases h; exact absurd hg hmem
  · refine ⟨?_, ?_, ?_, ?_⟩
    · simp only [handleFileChange]
      constructor
      · intro h; simp at h
      · rintro ⟨x, hx, _⟩
        simp at hx
    · intro fs h _; cases h; rfl
    · intro x h; simp at h
    · intro x h; simp at h

/-- Witness for `file_upload_validation`: a single valid MIDI file is accepted,
the error is cleared, and the file is handed to `setFile`. -/
theorem file_upload_validation_witness :
    handleFileChange "old error" (some [wFile]) = ("", some wFile) :=
  (file_upload_validation "old error" (some [wFile])).2.2.2 wFile rfl (by decide)

/-- The pairing loop yields one `GenMidi` per adjacent pair of files. -/
lemma pairFiles_length : ∀ (n : Nat) (l : List FileM), l.length = 2 * n →
    (pairFiles l).length = n := by
  intro n
  induction n with
  | zero =>
      intro l hl
      have : l = [] := List.length_eq_zero.mp (by omega)
      subst this
      rfl
  | succ n ih =>
      intro l hl
      rcases l with _ | ⟨a, _ | ⟨b, rest⟩⟩
      · simp at hl
      · simp at hl; omega
      · have hrest : rest.length = 2 * n := by simp at hl; omega
        show (pairFiles (a :: b :: rest)).length = n + 1
        rw [pairFiles]
        simp [ih rest hrest]

/-- Element `k` of the paired list takes its image from list slot `2k` and its
MIDI from slot `2k + 1`. -/
lemma pairFiles_get : ∀ (n k : Nat) (l : List FileM), l.length = 2 * n →
    k < n →
    (pairFiles l)[k]? = some ⟨l[2 * k + 1]?, l[2 * k]?⟩ := by
  intro n
  induction n with
  | zero => intro k l _ hk; omega
  | succ n ih =>
      intro k l hl hk
      rcases l with _ | ⟨a, _ | ⟨b, rest⟩⟩
      · simp at hl
      · simp at hl; omega
      · have hrest : rest.length = 2 * n := by simp at hl; omega
        cases k with
        | zero => rw [pairFiles]; simp
        | succ k =>
            have hk' : k < n := by omega
            show (pairFiles (a :: b :: rest))[k + 1]? = _
            rw [pairFiles, List.getElem?_cons_succ, ih k rest hrest hk']
            have e1 : 2 * (k + 1) + 1 = 2 * k + 1 + 1 + 1 := by omega
            have e2 : 2 * (k + 1) = 2 * k + 1 + 1 := by omega
            rw [e1, e2]
            simp

/-- C3: when the extracted file list holds, per output, an image file
immediately followed by its paired MIDI file (`2n` files for `n` outputs), the
pairing loop of `handleGenerate` builds exactly one result per output, the
`k`-th taking its `imageFile` from list element `2k` and its `midiFile` from
list element `2k + 1`. -/
theorem pairing_correct (fileList : List FileM) (n k : Nat)
    (hlen : fileList.length = 2 * n) (hk : k < n) :
    (pairFiles fileList).length = n ∧
    (pairFiles fileList)[k]? =
      some ⟨fileList[2 * k + 1]?, fileList[2 * k]?⟩ :=
  ⟨pairFiles_length n fileList hlen, pairFiles_get n k fileList hlen hk⟩

/-- Concrete image file used to witness the pairing claim. -/
def wImg : FileM := { name := "out0.jpg", type := "jpg", content := [1] }

/-- Concrete generated MIDI file used to witness the pairing claim. -/
def wMid : FileM := { name := "out0.mid", type := "mid", content := [2] }

/-- Witness for `pairing_correct` on a one-output response. -/
theorem pairing_correct_witness :
    (pairFiles [wImg, wMid]).length = 1 ∧
    (pairFiles [wImg, wMid])[0]? =
      some ⟨[wImg, wMid][1]?, [wImg, wMid][0]?⟩ :=
  pairing_correct [wImg, wMid] 1 0 (by decide) (by decide)

/-- Applying `takeWhile` keeps a list all of whose elements satisfy the predicate. -/
lemma takeWhile_all {p : Char → Bool} : ∀ {l : List Char},
    (∀ x ∈ l, p x = true) → l.takeWhile p = l := by
  intro l
  induction l with
  | nil => intro _; rfl
  | cons a l ih =>
      intro h
      rw [List.takeWhile_cons, if_pos (h a (List.mem_cons_self _ _)),
        ih fun x hx => h x (List.mem_cons_of_mem _ hx)]

/-- Applying `takeWhile` over an append stops inside the left part when some element of
it fails the predicate. -/
lemma takeWhile_stop {p : Char → Bool} : ∀ {l : List Char} (m : List Char),
    ¬ (∀ x ∈ l, p x = true) → (l ++ m).takeWhile p = l.takeWhile p := by
  intro l
  induction l with
  | nil => intro m h; exact absurd (by simp) h
  | cons a l ih =>
      intro m h
      by_cases hpa : p a = true
      · have hl : ¬ ∀ x ∈ l, p x = true := by
          intro hall
          exact h fun x hx => by
            rcases List.mem_cons.mp hx with h1 | h2
            · exact h1 ▸ hpa
            · exact hall x h2
        simp only [List.cons_append, List.takeWhile_cons, if_pos hpa]
        rw [ih m hl]
      · simp only [List.cons_append, List.takeWhile_cons, if_neg hpa]

/-- JavaScript `split` never yields an empty array. -/
lemma splitDot_ne_nil : ∀ cs : List Char, splitDot cs ≠ [] := by
  intro cs
  cases cs with
  | nil => simp [splitDot]
  | cons c cs =>
      by_cases hc : c = '.'
      · simp [splitDot, hc]
      · rcases h : splitDot cs with _ | ⟨p, ps⟩ <;> simp [splitDot, hc, h]

/-- A name without a dot splits into the single piece that is the whole name. -/
lemma splitDot_no_dot : ∀ {cs : List Char}, '.' ∉ cs → splitDot cs = [cs] := by
  intro cs
  induction cs with
  | nil => intro _; rfl
  | cons c cs ih =>
      intro h
      have hc : ¬ c = '.' := fun e => h (e ▸ List.mem_cons_self _ _)
      have h' : '.' ∉ cs := fun hm => h (List.mem_cons_of_mem _ hm)
      rw [splitDot, if_neg hc, ih h']

/-- A name containing a dot splits into at least two pieces. -/
lemma splitDot_dot_len : ∀ {cs : List Char}, '.' ∈ cs →
    2 ≤ (splitDot cs).length := by
  intro cs
  induction cs with
  | nil => intro h; simp at h
  | cons c cs ih =>
      intro h
      by_cases hc : c = '.'
      · subst hc
        rw [splitDot, if_pos rfl]
        have := splitDot_ne_nil cs
        have : 0 < (splitDot cs).length := List.length_pos.mpr this
        simp
        omega
      · have h' : '.' ∈ cs := by
          rcases List.mem_cons.mp h with h1 | h2
          · exact absurd h1.symm hc
          · exact h2
        have ihl := ih h'
        rcases hsp : splitDot cs with _ | ⟨p, ps⟩
        · exact absurd hsp (splitDot_ne_nil cs)
        · rw [splitDot, if_neg hc, hsp]
          rw [hsp] at ihl
          simp at ihl ⊢
          omega

/-- Taking `getLastD` of a nonempty list ignores the default. -/
lemma getLastD_of_ne_nil : ∀ {l : List (List Char)}, l ≠ [] →
    ∀ d1 d2 : List Char, l.getLastD d1 = l.getLastD d2 := by
  intro l h d1 d2
  cases l with
  | nil => exact absurd rfl h
  | cons a l => rw [List.getLastD_cons, List.getLastD_cons]

/-- A name without a dot is its own after-last-dot suffix. -/
lemma afterLastDot_no_dot {l : List Char} (h : '.' ∉ l) :
    afterLastDot l = l := by
  unfold afterLastDot
  rw [takeWhile_all, List.reverse_reverse]
  intro x hx
  have : x ∈ l := List.mem_reverse.mp hx
  simp only [decide_eq_true_eq]
  exact fun e => h (e ▸ this)

/-- Prepending any character to a name that contains a dot does not change its
after-last-dot suffix. -/
lemma afterLastDot_cons_of_dot {c : Char} {cs : List Char} (h : '.' ∈ cs) :
    afterLastDot (c :: cs) = afterLastDot cs := by
  unfold afterLastDot
  rw [List.reverse_cons, takeWhile_stop]
  intro hall
  have := hall '.' (List.mem_reverse.mpr h)
  simp at this

/-- Prepending a dot to a dot-free name makes the name itself the suffix. -/
lemma afterLastDot_dot_no_dot {cs : List Char} (h : '.' ∉ cs) :
    afterLastDot ('.' :: cs) = cs := by
  unfold afterLastDot
  rw [List.reverse_cons]
  have hall : ∀ x ∈ cs.reverse, (fun c => decide (c ≠ '.')) x = true := by
    intro x hx
    have : x ∈ cs := List.mem_reverse.mp hx
    simp only [decide_eq_true_eq]
    exact fun e => h (e ▸ this)
  rw [List.takeWhile_append_of_pos hall]
  simp [takeWhile_all hall]

/-- The chain `split('.').pop()` computes the suffix of the name after its last dot. -/
lemma splitDot_getLastD : ∀ (cs : List Char) (d : List Char),
    (splitDot cs).getLastD d = afterLastDot cs := by
  intro cs
  induction cs with
  | nil => intro d; rfl
  | cons c cs ih =>
      intro d
      by_cases hdot : '.' ∈ cs
      · rw [afterLastDot_cons_of_dot hdot]
        by_cases hc : c = '.'
        · subst hc
          rw [splitDot, if_pos rfl, List.getLastD_cons, ih]
        · rcases hsp : splitDot cs with _ | ⟨p, ps⟩
          · exact absurd hsp (splitDot_ne_nil cs)
          · have hlen := splitDot_dot_len hdot
            rw [hsp] at hlen
            have hps : ps ≠ [] := by
              intro e
              subst e
              simp at hlen
            rw [splitDot, if_neg hc, hsp, List.getLastD_cons,
              getLastD_of_ne_nil hps (c :: p) p, ← List.getLastD_cons d p ps,
              ← hsp, ih]
      · have hsp := splitDot_no_dot hdot
        by_cases hc : c = '.'
        · subst hc
          rw [splitDot, if_pos rfl, List.getLastD_cons, hsp,
            List.getLastD_cons, afterLastDot_dot_no_dot hdot]
          rfl
        · have hnd : '.' ∉ c :: cs := by
            intro hm
            rcases List.mem_cons.mp hm with h1 | h2
            · exact hc h1.symm
            · exact hdot h2
          rw [splitDot, if_neg hc, hsp, afterLastDot_no_dot hnd]
          rfl

/-- The code's extension (`name.split('.').pop()!`) equals the substring of the
name after its last `'.'`. -/
lemma splitPop_eq (s : String) : splitPop s = extAfterLastDot s :=
  congrArg String.mk (splitDot_getLastD s.data [])

/-- C10: `extractFilesFromZip` returns, in the archive's entry order, one
`File` per non-directory entry and none for directories, each named after its
entry and typed with the substring of that name after its last `'.'`. -/
theorem zip_extract_spec (entries : List ZipEntry) :
    extractFilesFromZip entries =
      (entries.filter (fun e => !e.dir)).map
        (fun e => { name := e.name, type := extAfterLastDot e.name,
                    content := e.content }) := by
  induction entries with
  | nil => rfl
  | cons e es ih =>
      simp only [extractFilesFromZip, splitPop_eq] at ih ⊢
      rcases hd : e.dir
      · simp [List.filterMap_cons, List.filter_cons, hd, ih]
      · simp [List.filterMap_cons, List.filter_cons, hd, ih]

end MelodicNet
